import Mathlib

/-!
# AutonoWrite — verification of the specified core and the shipped JS helpers

The repository ships three source files: `app/static/js/main.js` (UI helpers:
`formatBytes`, `debounce`, a form-validation submit handler) and two setup
documents, one of which carries an `initFormValidation` JavaScript snippet.
The core components the specification describes (Quality Evaluator, Research
Aggregator, Budget Tracker, Iteration Controller, Project State Machine) have
no source under the repository; for those, the definitions below are modelled
from the spec, as their doc comments state.  The JS helpers are embedded
directly from `main.js` and `SETUP_DB.md`.

Scores and relevance values are embedded as rationals (`ℚ`); wall-clock time
and token counts as naturals.
-/

namespace AutonoWrite

/-- Agent roles, from the spec data model (`role ∈ {planner, researcher,
writer, critic}`). -/
inductive Role where
  | planner
  | researcher
  | writer
  | critic
deriving DecidableEq, Repr

/-- Project lifecycle status (`status ∈ {draft, in_progress, completed,
failed}`). -/
inductive Status where
  | draft
  | in_progress
  | completed
  | failed
deriving DecidableEq, Repr

/-- Machine-readable failure reason codes from the spec error taxonomy. -/
inductive FailReason where
  | max_iterations_exceeded
  | budget_exceeded
  | provider_error
  | cancelled
deriving DecidableEq, Repr

/-! ## Quality Evaluator (spec §4.4) -/

/-- Modelled from the spec: a rubric criterion (the Quality Evaluator's source
is not in the repository).  "The rubric is a fixed ordered set of named
criteria, each with a weight". -/
structure Criterion where
  name : String
  weight : ℚ
deriving DecidableEq, Repr

/-- Modelled from the spec: evaluator configuration, the `approvalThreshold`
(float in [0,10]) and the optional `minCriterionFloor`. -/
structure EvalConfig where
  approvalThreshold : ℚ
  minCriterionFloor : Option ℚ
deriving DecidableEq, Repr

/-- QualityEvaluation record, from the spec data model: one per
(project, iteration), with score, criteria breakdown, approved flag and
feedback (modelled as the list of criterion names the feedback must cite,
in rubric order). -/
structure QualityEvaluation where
  iteration : Nat
  score : ℚ
  criteria : List (String × ℚ)
  approved : Bool
  feedback : List String
deriving DecidableEq, Repr

/-- Modelled from the spec: the fixed "needs improvement" threshold the
feedback rule mentions; the spec fixes its existence, not its value. -/
def needsImprovement : ℚ := 6

/-- Each per-criterion sub-score lies in [0,10] (spec data model); the raw
scorer output is clamped into that interval. -/
def clampScore (q : ℚ) : ℚ := min 10 (max 0 q)

/-- Modelled from the spec: the criteria breakdown, a "mapping from
rubric-criterion name to sub-score" in rubric order.  `scorer` is the
pluggable judgment the critic's provider call supplies. -/
def breakdownOf (scorer : String → String → ℚ) (draft : String)
    (rubric : List Criterion) : List (String × ℚ) :=
  rubric.map (fun c => (c.name, clampScore (scorer draft c.name)))

/-- Modelled from the spec: "Overall score = weighted sum of per-criterion
sub-scores". -/
def overallScore (scorer : String → String → ℚ) (draft : String)
    (rubric : List Criterion) : ℚ :=
  (rubric.map (fun c => c.weight * clampScore (scorer draft c.name))).sum

/-- Modelled from the spec: the floor conjunct of the approval gate — "no
criterion sub-score < minCriterionFloor, if configured". -/
def floorOk (floor : Option ℚ) (breakdown : List (String × ℚ)) : Bool :=
  match floor with
  | none => true
  | some f => breakdown.all (fun p => decide (f ≤ p.2))

/-- Modelled from the spec: feedback "must name every criterion below its
floor or below a fixed needs-improvement threshold, in a stable order
matching the rubric". -/
def feedbackNames (floor : Option ℚ) (breakdown : List (String × ℚ)) :
    List String :=
  (breakdown.filter (fun p =>
    decide (p.2 < needsImprovement) ||
      (match floor with
       | none => false
       | some f => decide (p.2 < f)))).map (fun p => p.1)

/-- Modelled from the spec: `evaluate(draft, rubric) → QualityEvaluation`
with the conjunctive approval gate
`approved = (score ≥ approvalThreshold) AND (no sub-score < floor)`. -/
def evaluate (scorer : String → String → ℚ) (cfg : EvalConfig) (iter : Nat)
    (draft : String) (rubric : List Criterion) : QualityEvaluation :=
  let breakdown := breakdownOf scorer draft rubric
  let score := overallScore scorer draft rubric
  { iteration := iter
    score := score
    criteria := breakdown
    approved := decide (cfg.approvalThreshold ≤ score) &&
      floorOk cfg.minCriterionFloor breakdown
    feedback := feedbackNames cfg.minCriterionFloor breakdown }

/-! ## Research Aggregator (spec §4.3) -/

/-- Modelled from the spec: a discovered source, with a canonical identity
(e.g. a normalized URL), a relevance score in [0,1] and its text. -/
structure Source where
  id : String
  relevance : ℚ
  text : String
deriving DecidableEq, Repr

/-- Relevance-descending comparison used by the aggregator's ranking step. -/
def byRelevanceDesc (a b : Source) : Prop := b.relevance ≤ a.relevance

instance : DecidableRel byRelevanceDesc := fun a b =>
  inferInstanceAs (Decidable (b.relevance ≤ a.relevance))

instance : IsTotal Source byRelevanceDesc :=
  ⟨fun a b => le_total b.relevance a.relevance⟩

instance : IsTrans Source byRelevanceDesc :=
  ⟨fun _ _ _ h1 h2 => le_trans h2 h1⟩

/-- Modelled from the spec: deduplication by canonical identity, keeping the
first occurrence of each identity; `seen` accumulates identities already
kept. -/
def dedupKeyed (seen : List String) : List Source → List Source
  | [] => []
  | s :: rest =>
    if s.id ∈ seen then dedupKeyed seen rest
    else s :: dedupKeyed (s.id :: seen) rest

/-- Deduplicate a source list by canonical identity. -/
def dedupSources (l : List Source) : List Source := dedupKeyed [] l

/-- Sort sources by relevance score descending. -/
def sortByRelevance (l : List Source) : List Source :=
  List.insertionSort byRelevanceDesc l

/-- Modelled from the spec: the aggregator's result — retained sources, the
aggregate relevance score, and a content summary derived from the retained
sources' text. -/
structure ResearchBundle where
  sources : List Source
  aggregateScore : ℚ
  summary : String
deriving DecidableEq, Repr

/-- Modelled from the spec:
`research(queries, perQueryResultCap, totalSourceCap) → ResearchBundle`.
Issues each query to the search backend, deduplicates by canonical identity,
sorts by relevance descending, truncates to `totalSourceCap`, and computes
the aggregate relevance score (mean of retained sources' scores, or 0.0 if
none). -/
def research (backend : String → List Source) (queries : List String)
    (perQueryResultCap totalSourceCap : Nat) : ResearchBundle :=
  let raw := (queries.map (fun q => (backend q).take perQueryResultCap)).flatten
  let retained := (sortByRelevance (dedupSources raw)).take totalSourceCap
  { sources := retained
    aggregateScore :=
      if retained.isEmpty then 0
      else (retained.map Source.relevance).sum / (retained.length : ℚ)
    summary := String.intercalate " " (retained.map Source.text) }

/-! ## Shared records and the Iteration Controller (spec §3, §4.2, §4.5) -/

/-- AgentExecution record, from the spec data model: one per
(project, iteration, agent role) call, output nullable on failure. -/
structure AgentExecution where
  iteration : Nat
  role : Role
  inputPrompt : String
  output : Option String
  executionTime : Nat
  tokensUsed : Nat
deriving DecidableEq, Repr

/-- ResearchData record, from the spec data model: search query text, list of
discovered sources, aggregate relevance score, content summary. -/
structure ResearchData where
  iteration : Nat
  searchQuery : String
  sources : List Source
  aggregateScore : ℚ
  contentSummary : String
deriving DecidableEq, Repr

/-- Outcome of a resolved provider call: text plus token/time cost. -/
structure CallResult where
  text : String
  tokens : Nat
  time : Nat
deriving DecidableEq, Repr

/-- Modelled from the spec: controller configuration (`maxIterations`,
approval settings, `tokenBudget`, `timeBudget`, and the fixed rubric). -/
structure Config where
  maxIterations : Nat
  evalCfg : EvalConfig
  tokenBudget : Nat
  timeBudget : Nat
  rubric : List Criterion
deriving Repr

/-- Modelled from the spec: the external collaborators the controller calls —
the provider client (`invoke(role, prompt, modelConfig)` abstracted as a
function of iteration and role, `none` denoting a terminal failure after
retries are exhausted), the search backend, the critic's scoring judgment,
query derivation and prompt construction (both pluggable strategies), and
the aggregator caps. -/
structure Env where
  provider : Nat → Role → Option CallResult
  backend : String → List Source
  scorer : String → String → ℚ
  deriveQueries : String → List String
  mkPrompt : Role → Nat → String
  perQueryResultCap : Nat
  totalSourceCap : Nat

/-- The controller's run state: project status plus the append-only ledgers
and the Budget Tracker's running totals (spec §4.5: derived by accumulating
tokens and execution time from every AgentExecution). -/
structure RunState where
  status : Status
  reason : Option FailReason
  currentIteration : Nat
  execs : List AgentExecution
  evals : List QualityEvaluation
  research : List ResearchData
  tokensSpent : Nat
  timeSpent : Nat
  feedback : List String
  finalContent : Option String

/-- The state after a budget abort: the project fails with reason
`budget_exceeded`; no call was attempted, nothing was persisted. -/
def budgetFailState (st : RunState) : RunState :=
  { st with status := .failed, reason := some .budget_exceeded }

/-- The failed AgentExecution persisted for a terminal provider failure:
null output (spec §7). -/
def failedExec (env : Env) (i : Nat) (role : Role) : AgentExecution :=
  { iteration := i, role := role, inputPrompt := env.mkPrompt role i,
    output := none, executionTime := 0, tokensUsed := 0 }

/-- The state after a terminal provider failure: the failed call is audited
and the project fails with reason `provider_error`. -/
def providerFailState (env : Env) (i : Nat) (role : Role) (st : RunState) :
    RunState :=
  { st with
      status := .failed
      reason := some .provider_error
      currentIteration := i
      execs := st.execs ++ [failedExec env i role] }

/-- The AgentExecution persisted for a successful call. -/
def successExec (env : Env) (i : Nat) (role : Role) (r : CallResult) :
    AgentExecution :=
  { iteration := i, role := role, inputPrompt := env.mkPrompt role i,
    output := some r.text, executionTime := r.time, tokensUsed := r.tokens }

/-- The state after a successful call: the call is audited and its
token/time cost accumulated by the Budget Tracker. -/
def successState (env : Env) (i : Nat) (role : Role) (r : CallResult)
    (st : RunState) : RunState :=
  { st with
      currentIteration := i
      execs := st.execs ++ [successExec env i role r]
      tokensSpent := st.tokensSpent + r.tokens
      timeSpent := st.timeSpent + r.time }

/-- Modelled from the spec: one budget-checked provider role call.  The
Budget Tracker's `remaining()` is consulted before the call; if there is no
headroom, no call is attempted and the project fails with
`budget_exceeded`.  A terminal provider failure is persisted as a failed
AgentExecution with null output and fails the project with
`provider_error`.  A successful call is persisted and its cost accumulated. -/
def callRole (cfg : Config) (env : Env) (i : Nat) (role : Role)
    (st : RunState) : RunState × Option String :=
  if st.tokensSpent < cfg.tokenBudget ∧ st.timeSpent < cfg.timeBudget then
    match env.provider i role with
    | none => (providerFailState env i role st, none)
    | some r => (successState env i role r st, some r.text)
  else
    (budgetFailState st, none)

/-- The ResearchData record persisted for one round: the queries derived
from the researcher's output are issued through the Research Aggregator and
the resulting bundle is persisted. -/
def researchRecord (env : Env) (i : Nat) (researcherOut : String) :
    ResearchData :=
  { iteration := i
    searchQuery := String.intercalate "; " (env.deriveQueries researcherOut)
    sources := (research env.backend (env.deriveQueries researcherOut)
      env.perQueryResultCap env.totalSourceCap).sources
    aggregateScore := (research env.backend (env.deriveQueries researcherOut)
      env.perQueryResultCap env.totalSourceCap).aggregateScore
    contentSummary := (research env.backend (env.deriveQueries researcherOut)
      env.perQueryResultCap env.totalSourceCap).summary }

/-- The state after the research step of a round: the bundle is persisted in
the append-only ResearchData ledger.  Research never fails the round (spec
§4.3, §7). -/
def researchAppendState (env : Env) (i : Nat) (researcherOut : String)
    (st : RunState) : RunState :=
  { st with research := st.research ++ [researchRecord env i researcherOut] }

/-- The QualityEvaluation produced for iteration `i` of a round. -/
def evalRecord (cfg : Config) (env : Env) (i : Nat) (draft : String) :
    QualityEvaluation :=
  evaluate env.scorer cfg.evalCfg i draft cfg.rubric

/-- The decision step of a complete round: persist the QualityEvaluation;
on approval transition to `completed` recording the final content, otherwise
carry the evaluation's feedback into the next round. -/
def decisionState (cfg : Config) (env : Env) (i : Nat) (draft : String)
    (st : RunState) : RunState :=
  if (evalRecord cfg env i draft).approved then
    { st with
        evals := st.evals ++ [evalRecord cfg env i draft]
        status := .completed
        finalContent := some draft }
  else
    { st with
        evals := st.evals ++ [evalRecord cfg env i draft]
        feedback := (evalRecord cfg env i draft).feedback }

/-- Modelled from the spec: one round (iteration) of the controller,
sequencing planner → researcher (with research aggregation) → writer →
critic/evaluation, with the budget consulted before each role call, partial
attempts audited, no QualityEvaluation persisted for an incomplete round,
and the approval decision driving the completed transition or the feedback
carried to the next round. -/
def runRound (cfg : Config) (env : Env) (st : RunState) : RunState :=
  if st.status = .in_progress then
    match callRole cfg env (st.currentIteration + 1) .planner st with
    | (st1, none) => st1
    | (st1, some _plannerOut) =>
      match callRole cfg env (st.currentIteration + 1) .researcher st1 with
      | (st2, none) => st2
      | (st2, some researcherOut) =>
        match callRole cfg env (st.currentIteration + 1) .writer
            (researchAppendState env (st.currentIteration + 1)
              researcherOut st2) with
        | (st3, none) => st3
        | (st3, some draft) =>
          match callRole cfg env (st.currentIteration + 1) .critic st3 with
          | (st4, none) => st4
          | (st4, some _criticOut) =>
            decisionState cfg env (st.currentIteration + 1) draft st4
  else st

/-- Modelled from the spec: the controller's per-iteration loop, bounded by
`maxIterations` rounds; exhausting the rounds without approval fails the
project with `max_iterations_exceeded`. -/
def runLoop (cfg : Config) (env : Env) : Nat → RunState → RunState
  | 0, st =>
    if st.status = .in_progress then
      { st with status := .failed, reason := some .max_iterations_exceeded }
    else st
  | fuel + 1, st =>
    if st.status = .in_progress then runLoop cfg env fuel (runRound cfg env st)
    else st

/-- The initial state of a project: status `draft`, empty ledgers, zero
spend. -/
def initialState : RunState :=
  { status := .draft, reason := none, currentIteration := 0, execs := [],
    evals := [], research := [], tokensSpent := 0, timeSpent := 0,
    feedback := [], finalContent := none }

/-- Modelled from the spec: the single entry transition — `draft →
in_progress` is triggered once, when the controller accepts a
StructuredInput and begins iteration 1. -/
def start (st : RunState) : RunState :=
  if st.status = .draft then { st with status := .in_progress } else st

/-- Modelled from the spec:
`runProject(project, structuredInput, config) → TerminalOutcome`. -/
def runProject (cfg : Config) (env : Env) : RunState :=
  runLoop cfg env cfg.maxIterations (start initialState)

/-- States reachable during a project run: the initial state, closed under
the entry transition and the execution of one round. -/
inductive Reachable (cfg : Config) (env : Env) : RunState → Prop
  | init : Reachable cfg env initialState
  | step_start : ∀ {st}, Reachable cfg env st → Reachable cfg env (start st)
  | step_round : ∀ {st}, Reachable cfg env st →
      Reachable cfg env (runRound cfg env st)

end AutonoWrite

namespace AutonoWrite

/-- C1: the approval gate is the stated biconditional: approved holds iff the
overall score reaches the threshold and, when a floor is configured, every
criterion sub-score is at least the floor. -/
theorem evaluate_approved_iff (scorer : String → String → ℚ)
    (cfg : EvalConfig) (iter : Nat) (draft : String)
    (rubric : List Criterion) :
    (evaluate scorer cfg iter draft rubric).approved = true ↔
      (cfg.approvalThreshold ≤ (evaluate scorer cfg iter draft rubric).score ∧
        ∀ f, cfg.minCriterionFloor = some f →
          ∀ p ∈ (evaluate scorer cfg iter draft rubric).criteria, f ≤ p.2) := by
  simp only [evaluate, floorOk, Bool.and_eq_true, decide_eq_true_eq]
  cases h : cfg.minCriterionFloor with
  | none => simp
  | some f => simp [List.all_eq_true]

/-- C1 witness: the gate evaluated at a concrete rubric and scorer. -/
theorem evaluate_approved_iff_witness :
    (evaluate (fun _ _ => 8) ⟨7, some 5⟩ 1 "draft"
      [⟨"accuracy", 1⟩]).approved = true :=
  (evaluate_approved_iff (fun _ _ => 8) ⟨7, some 5⟩ 1 "draft"
    [⟨"accuracy", 1⟩]).mpr (by constructor <;> simp [evaluate, overallScore,
      breakdownOf, clampScore] <;> norm_num)

/-- C7: evaluation is deterministic — two evaluations of the same draft with
the same rubric (and the same scorer and config) yield the same score and the
same approval verdict. -/
theorem evaluate_deterministic (scorer : String → String → ℚ)
    (cfg : EvalConfig) (iter : Nat) (draft : String) (rubric : List Criterion)
    (e1 e2 : QualityEvaluation)
    (h1 : e1 = evaluate scorer cfg iter draft rubric)
    (h2 : e2 = evaluate scorer cfg iter draft rubric) :
    e1.score = e2.score ∧ e1.approved = e2.approved := by
  subst h1; subst h2; exact ⟨rfl, rfl⟩

/-- C7 witness: determinism at a concrete evaluation. -/
theorem evaluate_deterministic_witness :
    (evaluate (fun _ _ => 3) ⟨7, none⟩ 1 "d" [⟨"clarity", 1⟩]).score =
        (evaluate (fun _ _ => 3) ⟨7, none⟩ 1 "d" [⟨"clarity", 1⟩]).score ∧
      (evaluate (fun _ _ => 3) ⟨7, none⟩ 1 "d" [⟨"clarity", 1⟩]).approved =
        (evaluate (fun _ _ => 3) ⟨7, none⟩ 1 "d" [⟨"clarity", 1⟩]).approved :=
  evaluate_deterministic (fun _ _ => 3) ⟨7, none⟩ 1 "d" [⟨"clarity", 1⟩]
    _ _ rfl rfl

/-! ## Research Aggregator lemmas -/

/-- Every source kept by `dedupKeyed` has an identity outside `seen`. -/
theorem dedupKeyed_id_not_mem (l : List Source) (seen : List String) :
    ∀ s ∈ dedupKeyed seen l, s.id ∉ seen := by
  induction l generalizing seen with
  | nil => simp [dedupKeyed]
  | cons a rest ih =>
    intro s hs
    rw [dedupKeyed] at hs
    by_cases h : a.id ∈ seen
    · rw [if_pos h] at hs
      exact ih seen s hs
    · rw [if_neg h] at hs
      rcases List.mem_cons.mp hs with rfl | hs'
      · exact h
      · intro hmem
        exact ih (a.id :: seen) s hs' (List.mem_cons_of_mem _ hmem)

/-- The function `dedupKeyed` yields pairwise-distinct canonical identities. -/
theorem dedupKeyed_nodup (l : List Source) (seen : List String) :
    ((dedupKeyed seen l).map Source.id).Nodup := by
  induction l generalizing seen with
  | nil => simp [dedupKeyed]
  | cons a rest ih =>
    rw [dedupKeyed]
    by_cases h : a.id ∈ seen
    · rw [if_pos h]
      exact ih seen
    · rw [if_neg h]
      simp only [List.map_cons, List.nodup_cons]
      refine ⟨fun hmem => ?_, ih (a.id :: seen)⟩
      rcases List.mem_map.mp hmem with ⟨s, hs, hid⟩
      exact dedupKeyed_id_not_mem rest (a.id :: seen) s hs
        (hid ▸ List.mem_cons_self _ _)

/-- The function `dedupSources` yields pairwise-distinct canonical identities. -/
theorem dedupSources_nodup (l : List Source) :
    ((dedupSources l).map Source.id).Nodup :=
  dedupKeyed_nodup l []

/-- C6: the aggregator deduplicates by canonical identity, sorts by relevance
descending, retains at most `totalSourceCap` sources, and aggregates by the
mean of the retained scores (0 when none). -/
theorem research_correct (backend : String → List Source)
    (queries : List String) (pq ts : Nat) :
    ((research backend queries pq ts).sources.map Source.id).Nodup ∧
      (research backend queries pq ts).sources.Pairwise byRelevanceDesc ∧
      (research backend queries pq ts).sources.length ≤ ts ∧
      ((research backend queries pq ts).sources = [] →
        (research backend queries pq ts).aggregateScore = 0) ∧
      ((research backend queries pq ts).sources ≠ [] →
        (research backend queries pq ts).aggregateScore =
          ((research backend queries pq ts).sources.map Source.relevance).sum /
            ((research backend queries pq ts).sources.length : ℚ)) := by
  set raw :=
    (queries.map (fun q => (backend q).take pq)).flatten with hraw
  have hsrc : (research backend queries pq ts).sources =
      (sortByRelevance (dedupSources raw)).take ts := rfl
  have hagg : (research backend queries pq ts).aggregateScore =
      if (research backend queries pq ts).sources.isEmpty then 0
      else ((research backend queries pq ts).sources.map
          Source.relevance).sum /
        ((research backend queries pq ts).sources.length : ℚ) := rfl
  refine ⟨?_, ?_, ?_, ?_, ?_⟩
  · rw [hsrc, List.map_take]
    refine List.Nodup.sublist (List.take_sublist _ _) ?_
    have hperm : List.Perm
        ((sortByRelevance (dedupSources raw)).map Source.id)
        ((dedupSources raw).map Source.id) :=
      (List.perm_insertionSort byRelevanceDesc (dedupSources raw)).map _
    exact hperm.nodup_iff.mpr (dedupSources_nodup raw)
  · rw [hsrc]
    exact (List.sorted_insertionSort byRelevanceDesc
      (dedupSources raw)).sublist (List.take_sublist _ _)
  · rw [hsrc]
    exact List.length_take_le _ _
  · intro h
    rw [hagg, if_pos (by rw [List.isEmpty_iff]; exact h)]
  · intro h
    rw [hagg, if_neg (by rw [List.isEmpty_iff]; exact h)]

/-- C6 witness: the aggregator's guarantees at a concrete backend, with a
duplicate identity across queries and a cap of 2. -/
theorem research_correct_witness :
    ((research
        (fun q => if q = "a" then [⟨"u1", 1/2, "s"⟩, ⟨"u2", 1, "t"⟩]
          else [⟨"u1", 1/2, "s"⟩]) ["a", "b"] 5 2).sources.map
        Source.id).Nodup ∧
      (research (fun q => if q = "a" then [⟨"u1", 1/2, "s"⟩, ⟨"u2", 1, "t"⟩]
          else [⟨"u1", 1/2, "s"⟩]) ["a", "b"] 5 2).sources.length ≤ 2 ∧
      ((research (fun q => if q = "a" then [⟨"u1", 1/2, "s"⟩, ⟨"u2", 1, "t"⟩]
          else [⟨"u1", 1/2, "s"⟩]) ["a", "b"] 5 2).sources ≠ [] →
        (research (fun q => if q = "a" then [⟨"u1", 1/2, "s"⟩, ⟨"u2", 1, "t"⟩]
          else [⟨"u1", 1/2, "s"⟩]) ["a", "b"] 5 2).aggregateScore =
          ((research (fun q => if q = "a" then [⟨"u1", 1/2, "s"⟩, ⟨"u2", 1, "t"⟩]
            else [⟨"u1", 1/2, "s"⟩]) ["a", "b"] 5 2).sources.map
              Source.relevance).sum /
            ((research (fun q => if q = "a" then [⟨"u1", 1/2, "s"⟩, ⟨"u2", 1, "t"⟩]
              else [⟨"u1", 1/2, "s"⟩]) ["a", "b"] 5 2).sources.length : ℚ)) := by
  have h := research_correct
    (fun q => if q = "a" then [⟨"u1", 1/2, "s"⟩, ⟨"u2", 1, "t"⟩]
      else [⟨"u1", 1/2, "s"⟩]) ["a", "b"] 5 2
  exact ⟨h.1, h.2.2.1, h.2.2.2.2⟩

/-- Zero matching sources from the backend yield the empty bundle with
aggregate score 0. -/
theorem research_empty (backend : String → List Source)
    (queries : List String) (pq ts : Nat) (h : ∀ q, backend q = []) :
    (research backend queries pq ts).sources = [] ∧
      (research backend queries pq ts).aggregateScore = 0 := by
  have hraw : (queries.map (fun q => (backend q).take pq)).flatten =
      ([] : List Source) := by
    simp [h]
  have hsrc : (research backend queries pq ts).sources = [] := by
    show (sortByRelevance (dedupSources
      ((queries.map (fun q => (backend q).take pq)).flatten))).take ts = []
    rw [hraw]
    simp [dedupSources, dedupKeyed, sortByRelevance, List.insertionSort]
  have hagg : (research backend queries pq ts).aggregateScore =
      if (research backend queries pq ts).sources.isEmpty then 0
      else ((research backend queries pq ts).sources.map
          Source.relevance).sum /
        ((research backend queries pq ts).sources.length : ℚ) := rfl
  refine ⟨hsrc, ?_⟩
  rw [hagg, hsrc]
  rfl

/-! ## Iteration Controller lemmas -/

/-- Case analysis for one budget-checked role call: the call is aborted on
missing headroom, or resolves to a terminal provider failure, or succeeds. -/
theorem callRole_cases (cfg : Config) (env : Env) (i : Nat) (role : Role)
    (st : RunState) :
    (¬(st.tokensSpent < cfg.tokenBudget ∧ st.timeSpent < cfg.timeBudget) ∧
      callRole cfg env i role st = (budgetFailState st, none)) ∨
    (st.tokensSpent < cfg.tokenBudget ∧ st.timeSpent < cfg.timeBudget ∧
      env.provider i role = none ∧
      callRole cfg env i role st =
        (providerFailState env i role st, none)) ∨
    (∃ r, st.tokensSpent < cfg.tokenBudget ∧ st.timeSpent < cfg.timeBudget ∧
      env.provider i role = some r ∧
      callRole cfg env i role st =
        (successState env i role r st, some r.text)) := by
  by_cases hb : st.tokensSpent < cfg.tokenBudget ∧
    st.timeSpent < cfg.timeBudget
  · cases hp : env.provider i role with
    | none =>
      exact Or.inr (Or.inl ⟨hb.1, hb.2, rfl, by rw [callRole, if_pos hb, hp]⟩)
    | some r =>
      exact Or.inr (Or.inr ⟨r, hb.1, hb.2, rfl,
        by rw [callRole, if_pos hb, hp]⟩)
  · exact Or.inl ⟨hb, by rw [callRole, if_neg hb]⟩

/-- A role call leaves the status unchanged or fails the project. -/
theorem callRole_status (cfg : Config) (env : Env) (i : Nat) (role : Role)
    (st st' : RunState) (o : Option String)
    (h : callRole cfg env i role st = (st', o)) :
    st'.status = st.status ∨ st'.status = .failed := by
  rcases callRole_cases cfg env i role st with ⟨_, he⟩ | ⟨_, _, _, he⟩ |
    ⟨r, _, _, _, he⟩ <;> rw [he] at h <;>
    cases h <;> simp [budgetFailState, providerFailState, successState]

/-- A role call never touches the QualityEvaluation ledger. -/
theorem callRole_evals (cfg : Config) (env : Env) (i : Nat) (role : Role)
    (st st' : RunState) (o : Option String)
    (h : callRole cfg env i role st = (st', o)) :
    st'.evals = st.evals := by
  rcases callRole_cases cfg env i role st with ⟨_, he⟩ | ⟨_, _, _, he⟩ |
    ⟨r, _, _, _, he⟩ <;> rw [he] at h <;> cases h <;> rfl

/-- A role call never touches the ResearchData ledger. -/
theorem callRole_research (cfg : Config) (env : Env) (i : Nat) (role : Role)
    (st st' : RunState) (o : Option String)
    (h : callRole cfg env i role st = (st', o)) :
    st'.research = st.research := by
  rcases callRole_cases cfg env i role st with ⟨_, he⟩ | ⟨_, _, _, he⟩ |
    ⟨r, _, _, _, he⟩ <;> rw [he] at h <;> cases h <;> rfl

/-- A role call only appends to the AgentExecution ledger. -/
theorem callRole_execs (cfg : Config) (env : Env) (i : Nat) (role : Role)
    (st st' : RunState) (o : Option String)
    (h : callRole cfg env i role st = (st', o)) :
    ∃ l, st'.execs = st.execs ++ l := by
  rcases callRole_cases cfg env i role st with ⟨_, he⟩ | ⟨_, _, _, he⟩ |
    ⟨r, _, _, _, he⟩ <;> rw [he] at h <;> cases h
  · exact ⟨[], by simp [budgetFailState]⟩
  · exact ⟨_, rfl⟩
  · exact ⟨_, rfl⟩

/-- A role call leaves the iteration counter alone or sets it to `i`. -/
theorem callRole_cur (cfg : Config) (env : Env) (i : Nat) (role : Role)
    (st st' : RunState) (o : Option String)
    (h : callRole cfg env i role st = (st', o)) :
    st'.currentIteration = st.currentIteration ∨
      st'.currentIteration = i := by
  rcases callRole_cases cfg env i role st with ⟨_, he⟩ | ⟨_, _, _, he⟩ |
    ⟨r, _, _, _, he⟩ <;> rw [he] at h <;> cases h
  · exact Or.inl rfl
  · exact Or.inr rfl
  · exact Or.inr rfl

/-- Token accounting: a call is only made with headroom, so the running
total stays within the budget plus one call's cost. -/
theorem callRole_tokens (cfg : Config) (env : Env) (i : Nat) (role : Role)
    (st st' : RunState) (o : Option String) (M : Nat)
    (hM : ∀ r, env.provider i role = some r → r.tokens ≤ M)
    (hst : st.tokensSpent ≤ cfg.tokenBudget + M)
    (h : callRole cfg env i role st = (st', o)) :
    st'.tokensSpent ≤ cfg.tokenBudget + M := by
  rcases callRole_cases cfg env i role st with ⟨_, he⟩ | ⟨_, _, _, he⟩ |
    ⟨r, hb, _, hp, he⟩ <;> rw [he] at h <;> cases h
  · exact hst
  · exact hst
  · have := hM r hp
    simp only [successState]
    omega

/-- Time accounting: the running total stays within the budget plus one
call's cost. -/
theorem callRole_time (cfg : Config) (env : Env) (i : Nat) (role : Role)
    (st st' : RunState) (o : Option String) (M : Nat)
    (hM : ∀ r, env.provider i role = some r → r.time ≤ M)
    (hst : st.timeSpent ≤ cfg.timeBudget + M)
    (h : callRole cfg env i role st = (st', o)) :
    st'.timeSpent ≤ cfg.timeBudget + M := by
  rcases callRole_cases cfg env i role st with ⟨_, he⟩ | ⟨_, _, _, he⟩ |
    ⟨r, hb, hb2, hp, he⟩ <;> rw [he] at h <;> cases h
  · exact hst
  · exact hst
  · have := hM r hp
    simp only [successState]
    omega

/-- A successful role call records the call in the ledger at iteration `i`
with the call's output, sets the iteration counter to `i`, and keeps the
status. -/
theorem callRole_some (cfg : Config) (env : Env) (i : Nat) (role : Role)
    (st st' : RunState) (t : String)
    (h : callRole cfg env i role st = (st', some t)) :
    st'.currentIteration = i ∧ st'.status = st.status ∧
      ∃ e ∈ st'.execs, e.iteration = i ∧ e.role = role ∧
        e.output = some t := by
  rcases callRole_cases cfg env i role st with ⟨_, he⟩ | ⟨_, _, _, he⟩ |
    ⟨r, _, _, _, he⟩ <;> rw [he] at h <;> cases h
  refine ⟨rfl, rfl, ?_⟩
  exact ⟨_, List.mem_append_right _ (List.mem_singleton_self _),
    rfl, rfl, rfl⟩

/-! ## Ledger invariant (C4) -/

/-- The ledger invariant over the append-only records: the iteration numbers
present among AgentExecutions are exactly the contiguous range
`1..cur`; every QualityEvaluation sits inside that range; and a
QualityEvaluation for iteration `i` requires all four AgentExecution roles
at iteration `i`. -/
def LedgerOk (ex : List AgentExecution) (ev : List QualityEvaluation)
    (cur : Nat) : Prop :=
  (∀ i, (∃ e ∈ ex, e.iteration = i) ↔ (1 ≤ i ∧ i ≤ cur)) ∧
  (∀ q ∈ ev, 1 ≤ q.iteration ∧ q.iteration ≤ cur) ∧
  (∀ q ∈ ev, ∀ role : Role,
    ∃ e ∈ ex, e.iteration = q.iteration ∧ e.role = role)

/-- The ledger invariant as a predicate on run states. -/
def LedgerInvariant (st : RunState) : Prop :=
  LedgerOk st.execs st.evals st.currentIteration

/-- The empty ledger satisfies the invariant with `cur = 0`. -/
theorem LedgerOk.empty : LedgerOk [] [] 0 := by
  refine ⟨fun i => ?_, by simp, by simp⟩
  simp only [List.mem_nil_iff, false_and, exists_false, false_iff, not_and]
  omega

/-- Appending an execution for the next iteration advances the range
`1..cur` to `1..cur+1`. -/
theorem LedgerOk.append_next {ex : List AgentExecution}
    {ev : List QualityEvaluation} {cur : Nat} (h : LedgerOk ex ev cur)
    (e : AgentExecution) (he : e.iteration = cur + 1) :
    LedgerOk (ex ++ [e]) ev (cur + 1) := by
  obtain ⟨h1, h2, h3⟩ := h
  refine ⟨fun i => ?_, fun q hq => ?_, fun q hq role => ?_⟩
  · constructor
    · rintro ⟨e', he', rfl⟩
      rcases List.mem_append.mp he' with hmem | hmem
      · have := (h1 e'.iteration).mp ⟨e', hmem, rfl⟩
        omega
      · rw [List.mem_singleton.mp hmem, he]
        omega
    · rintro ⟨hi1, hi2⟩
      by_cases hc : i ≤ cur
      · obtain ⟨e', he', hit⟩ := (h1 i).mpr ⟨hi1, hc⟩
        exact ⟨e', List.mem_append_left _ he', hit⟩
      · have hi : i = cur + 1 := by omega
        exact ⟨e, List.mem_append_right _ (List.mem_singleton_self _),
          by omega⟩
  · have := h2 q hq
    omega
  · obtain ⟨e', he', hit, hrole⟩ := h3 q hq role
    exact ⟨e', List.mem_append_left _ he', hit, hrole⟩

/-- Appending an execution for the current (already started) iteration keeps
the range `1..cur`. -/
theorem LedgerOk.append_cur {ex : List AgentExecution}
    {ev : List QualityEvaluation} {cur : Nat} (h : LedgerOk ex ev cur)
    (e : AgentExecution) (he : e.iteration = cur) (hc : 1 ≤ cur) :
    LedgerOk (ex ++ [e]) ev cur := by
  obtain ⟨h1, h2, h3⟩ := h
  refine ⟨fun i => ?_, h2, fun q hq role => ?_⟩
  · constructor
    · rintro ⟨e', he', rfl⟩
      rcases List.mem_append.mp he' with hmem | hmem
      · exact (h1 e'.iteration).mp ⟨e', hmem, rfl⟩
      · rw [List.mem_singleton.mp hmem, he]
        omega
    · intro hi
      obtain ⟨e', he', hit⟩ := (h1 i).mpr hi
      exact ⟨e', List.mem_append_left _ he', hit⟩
  · obtain ⟨e', he', hit, hrole⟩ := h3 q hq role
    exact ⟨e', List.mem_append_left _ he', hit, hrole⟩

/-- Appending an evaluation for the current iteration preserves the
invariant when all four roles have run in that iteration. -/
theorem LedgerOk.append_eval {ex : List AgentExecution}
    {ev : List QualityEvaluation} {cur : Nat} (h : LedgerOk ex ev cur)
    (q : QualityEvaluation) (hq : q.iteration = cur) (hc : 1 ≤ cur)
    (hroles : ∀ role : Role, ∃ e ∈ ex, e.iteration = cur ∧ e.role = role) :
    LedgerOk ex (ev ++ [q]) cur := by
  obtain ⟨h1, h2, h3⟩ := h
  refine ⟨h1, fun q' hq' => ?_, fun q' hq' role => ?_⟩
  · rcases List.mem_append.mp hq' with hmem | hmem
    · exact h2 q' hmem
    · rw [List.mem_singleton.mp hmem, hq]
      omega
  · rcases List.mem_append.mp hq' with hmem | hmem
    · exact h3 q' hmem role
    · rw [List.mem_singleton.mp hmem, hq]
      exact hroles role

/-- One budget-checked role call preserves the ledger invariant, provided it
targets the next iteration or the currently running one. -/
theorem callRole_ledger (cfg : Config) (env : Env) (i : Nat) (role : Role)
    (st st' : RunState) (o : Option String)
    (h : callRole cfg env i role st = (st', o))
    (hinv : LedgerInvariant st)
    (hi : i = st.currentIteration + 1 ∨
      (i = st.currentIteration ∧ 1 ≤ i)) :
    LedgerInvariant st' := by
  rcases callRole_cases cfg env i role st with ⟨_, he⟩ | ⟨_, _, _, he⟩ |
    ⟨r, _, _, _, he⟩ <;> rw [he] at h <;> cases h
  · exact hinv
  · show LedgerOk (st.execs ++ [failedExec env i role]) st.evals i
    rcases hi with hi | ⟨hi, hc⟩
    · rw [hi]
      exact hinv.append_next _ rfl
    · rw [hi]
      exact hinv.append_cur _ rfl (hi ▸ hc)
  · show LedgerOk (st.execs ++ [successExec env i role r]) st.evals i
    rcases hi with hi | ⟨hi, hc⟩
    · rw [hi]
      exact hinv.append_next _ rfl
    · rw [hi]
      exact hinv.append_cur _ rfl (hi ▸ hc)

/-- Executions already in the ledger survive a role call (append-only). -/
theorem callRole_mem (cfg : Config) (env : Env) (i : Nat) (role : Role)
    (st st' : RunState) (o : Option String)
    (h : callRole cfg env i role st = (st', o)) (e : AgentExecution)
    (he : e ∈ st.execs) : e ∈ st'.execs := by
  obtain ⟨l, hl⟩ := callRole_execs cfg env i role st st' o h
  rw [hl]
  exact List.mem_append_left _ he

/-- Master induction principle over one round: a property that holds before
the round and is preserved by every budget-checked role call at the round's
iteration, by the research persistence step, and by the decision step of a
complete round (which only ever runs at the round's iteration with all four
roles audited) holds after the round. -/
theorem runRound_chain (cfg : Config) (env : Env) (st : RunState)
    (P : RunState → Prop) (hP : P st)
    (hcall : ∀ role stk stk' o,
      callRole cfg env (st.currentIteration + 1) role stk = (stk', o) →
      P stk → P stk')
    (hresearch : ∀ stk rOut, P stk →
      P (researchAppendState env (st.currentIteration + 1) rOut stk))
    (hdecision : ∀ stk draft, P stk →
      stk.currentIteration = st.currentIteration + 1 →
      (∀ role : Role, ∃ e ∈ stk.execs,
        e.iteration = st.currentIteration + 1 ∧ e.role = role) →
      P (decisionState cfg env (st.currentIteration + 1) draft stk)) :
    P (runRound cfg env st) := by
  rw [runRound]
  by_cases hst : st.status = .in_progress
  case neg =>
    rw [if_neg hst]
    exact hP
  rw [if_pos hst]
  split
  next st1 heq1 => exact hcall _ _ _ _ heq1 hP
  next st1 t1 heq1 =>
  have hP1 := hcall _ _ _ _ heq1 hP
  split
  next st2 heq2 => exact hcall _ _ _ _ heq2 hP1
  next st2 t2 heq2 =>
  have hP2 := hcall _ _ _ _ heq2 hP1
  have hP2b := hresearch st2 t2 hP2
  split
  next st3 heq3 => exact hcall _ _ _ _ heq3 hP2b
  next st3 draft heq3 =>
  have hP3 := hcall _ _ _ _ heq3 hP2b
  split
  next st4 heq4 => exact hcall _ _ _ _ heq4 hP3
  next st4 t4 heq4 =>
  have hP4 := hcall _ _ _ _ heq4 hP3
  -- all four roles are audited at this point
  obtain ⟨hc1, -, e1, he1, hei1, her1, -⟩ :=
    callRole_some cfg env _ _ _ _ _ heq1
  obtain ⟨hc2, -, e2, he2, hei2, her2, -⟩ :=
    callRole_some cfg env _ _ _ _ _ heq2
  obtain ⟨hc3, -, e3, he3, hei3, her3, -⟩ :=
    callRole_some cfg env _ _ _ _ _ heq3
  obtain ⟨hc4, -, e4, he4, hei4, her4, -⟩ :=
    callRole_some cfg env _ _ _ _ _ heq4
  refine hdecision st4 draft hP4 hc4 ?_
  intro role
  have m1 : e1 ∈ st4.execs := by
    refine callRole_mem cfg env _ _ _ _ _ heq4 _ ?_
    refine callRole_mem cfg env _ _ _ _ _ heq3 _ ?_
    show e1 ∈ st2.execs
    exact callRole_mem cfg env _ _ _ _ _ heq2 _ he1
  have m2 : e2 ∈ st4.execs := by
    refine callRole_mem cfg env _ _ _ _ _ heq4 _ ?_
    refine callRole_mem cfg env _ _ _ _ _ heq3 _ ?_
    exact he2
  have m3 : e3 ∈ st4.execs := callRole_mem cfg env _ _ _ _ _ heq4 _ he3
  cases role with
  | planner => exact ⟨e1, m1, hei1, her1⟩
  | researcher => exact ⟨e2, m2, hei2, her2⟩
  | writer => exact ⟨e3, m3, hei3, her3⟩
  | critic => exact ⟨e4, he4, hei4, her4⟩

/-- One round preserves the ledger invariant (and moves the iteration
counter by at most one). -/
theorem runRound_ledger (cfg : Config) (env : Env) (st : RunState)
    (h : LedgerInvariant st) :
    LedgerInvariant (runRound cfg env st) := by
  have hmain : LedgerInvariant (runRound cfg env st) ∧
      ((runRound cfg env st).currentIteration = st.currentIteration ∨
        (runRound cfg env st).currentIteration = st.currentIteration + 1) := by
    refine runRound_chain cfg env st
      (fun stk => LedgerInvariant stk ∧
        (stk.currentIteration = st.currentIteration ∨
          stk.currentIteration = st.currentIteration + 1))
      ⟨h, Or.inl rfl⟩ ?_ ?_ ?_
    · rintro role stk stk' o heq ⟨hinv, hcur⟩
      refine ⟨callRole_ledger cfg env _ role stk stk' o heq hinv ?_, ?_⟩
      · rcases hcur with hcur | hcur
        · exact Or.inl (by rw [hcur])
        · exact Or.inr ⟨by rw [hcur], by omega⟩
      · rcases callRole_cur cfg env _ role stk stk' o heq with hc | hc
        · rw [hc]
          exact hcur
        · rw [hc]
          exact Or.inr rfl
    · rintro stk rOut ⟨hinv, hcur⟩
      exact ⟨hinv, hcur⟩
    · rintro stk draft ⟨hinv, hcur⟩ hc hroles
      have hq : (evalRecord cfg env (st.currentIteration + 1) draft).iteration
          = stk.currentIteration := by
        rw [hc]
        rfl
      have hc1 : 1 ≤ stk.currentIteration := by omega
      have hroles' : ∀ role : Role, ∃ e ∈ stk.execs,
          e.iteration = stk.currentIteration ∧ e.role = role := by
        rw [hc]
        exact hroles
      rw [decisionState]
      by_cases ha :
        (evalRecord cfg env (st.currentIteration + 1) draft).approved = true
      · rw [if_pos ha]
        exact ⟨hinv.append_eval _ hq hc1 hroles', hcur⟩
      · rw [if_neg ha]
        exact ⟨hinv.append_eval _ hq hc1 hroles', hcur⟩
  exact hmain.1

/-- Every reachable state satisfies the ledger invariant. -/
theorem ledger_of_reachable (cfg : Config) (env : Env) (st : RunState)
    (h : Reachable cfg env st) : LedgerInvariant st := by
  induction h with
  | init => exact LedgerOk.empty
  | step_start h ih =>
    rename_i stp
    show LedgerInvariant (start stp)
    rw [start]
    by_cases hs : stp.status = .draft
    · rw [if_pos hs]
      exact ih
    · rw [if_neg hs]
      exact ih
  | step_round h ih =>
    exact runRound_ledger cfg env _ ih

/-- C4: in every reachable state, the iteration numbers present in the
AgentExecution and QualityEvaluation records are exactly the contiguous
range `1..current_iteration`, and an evaluation for iteration `i` exists
only when all four roles were executed at iteration `i`. -/
theorem iteration_ledger_contiguous (cfg : Config) (env : Env)
    (st : RunState) (h : Reachable cfg env st) :
    (∀ i, ((∃ e ∈ st.execs, e.iteration = i) ∨
        (∃ q ∈ st.evals, q.iteration = i)) ↔
      (1 ≤ i ∧ i ≤ st.currentIteration)) ∧
    (∀ q ∈ st.evals, ∀ role : Role,
      ∃ e ∈ st.execs, e.iteration = q.iteration ∧ e.role = role) := by
  obtain ⟨h1, h2, h3⟩ := ledger_of_reachable cfg env st h
  refine ⟨fun i => ⟨?_, ?_⟩, h3⟩
  · rintro (he | ⟨q, hq, rfl⟩)
    · exact (h1 i).mp he
    · exact h2 q hq
  · intro hi
    exact Or.inl ((h1 i).mpr hi)

/-- A deterministic demo environment used to witness the controller
theorems on concrete inputs. -/
def demoEnv : Env :=
  { provider := fun _ _ => some { text := "out", tokens := 1, time := 1 }
    backend := fun _ => []
    scorer := fun _ _ => 8
    deriveQueries := fun s => [s]
    mkPrompt := fun _ _ => "p"
    perQueryResultCap := 3
    totalSourceCap := 3 }

/-- A demo configuration used to witness the controller theorems. -/
def demoCfg : Config :=
  { maxIterations := 3
    evalCfg := { approvalThreshold := 7, minCriterionFloor := none }
    tokenBudget := 100
    timeBudget := 100
    rubric := [{ name := "accuracy", weight := 1 }] }

/-- C4 witness: the ledger invariant at the (reachable) initial state. -/
theorem iteration_ledger_contiguous_witness :
    (∀ i, ((∃ e ∈ initialState.execs, e.iteration = i) ∨
        (∃ q ∈ initialState.evals, q.iteration = i)) ↔
      (1 ≤ i ∧ i ≤ initialState.currentIteration)) ∧
    (∀ q ∈ initialState.evals, ∀ role : Role,
      ∃ e ∈ initialState.execs, e.iteration = q.iteration ∧
        e.role = role) :=
  iteration_ledger_contiguous demoCfg demoEnv initialState Reachable.init

/-- One round keeps the budget totals within one call's cost of the budget
and advances the iteration counter by at most one. -/
theorem runRound_bounds (cfg : Config) (env : Env) (st : RunState)
    (Mtok Mtime : Nat)
    (htok : ∀ i role r, env.provider i role = some r → r.tokens ≤ Mtok)
    (htime : ∀ i role r, env.provider i role = some r → r.time ≤ Mtime)
    (h1 : st.tokensSpent ≤ cfg.tokenBudget + Mtok)
    (h2 : st.timeSpent ≤ cfg.timeBudget + Mtime) :
    (runRound cfg env st).tokensSpent ≤ cfg.tokenBudget + Mtok ∧
      (runRound cfg env st).timeSpent ≤ cfg.timeBudget + Mtime ∧
      (runRound cfg env st).currentIteration ≤ st.currentIteration + 1 := by
  refine runRound_chain cfg env st (fun stk =>
      stk.tokensSpent ≤ cfg.tokenBudget + Mtok ∧
      stk.timeSpent ≤ cfg.timeBudget + Mtime ∧
      stk.currentIteration ≤ st.currentIteration + 1)
    ⟨h1, h2, by omega⟩ ?_ ?_ ?_
  · rintro role stk stk' o heq ⟨ht1, ht2, hcu⟩
    refine ⟨callRole_tokens cfg env _ role stk stk' o Mtok
        (fun r hr => htok _ role r hr) ht1 heq,
      callRole_time cfg env _ role stk stk' o Mtime
        (fun r hr => htime _ role r hr) ht2 heq, ?_⟩
    rcases callRole_cur cfg env _ role stk stk' o heq with hc | hc <;> omega
  · rintro stk rOut ⟨ht1, ht2, hcu⟩
    exact ⟨ht1, ht2, hcu⟩
  · rintro stk draft ⟨ht1, ht2, hcu⟩ hc hroles
    rw [decisionState]
    by_cases ha :
      (evalRecord cfg env (st.currentIteration + 1) draft).approved = true
    · rw [if_pos ha]
      exact ⟨ht1, ht2, hcu⟩
    · rw [if_neg ha]
      exact ⟨ht1, ht2, hcu⟩

/-- The loop keeps the budget totals within one call's cost of the budget
and executes at most `fuel` further rounds. -/
theorem runLoop_bounds (cfg : Config) (env : Env) (Mtok Mtime : Nat)
    (htok : ∀ i role r, env.provider i role = some r → r.tokens ≤ Mtok)
    (htime : ∀ i role r, env.provider i role = some r → r.time ≤ Mtime) :
    ∀ (fuel : Nat) (st : RunState),
      st.tokensSpent ≤ cfg.tokenBudget + Mtok →
      st.timeSpent ≤ cfg.timeBudget + Mtime →
      (runLoop cfg env fuel st).tokensSpent ≤ cfg.tokenBudget + Mtok ∧
        (runLoop cfg env fuel st).timeSpent ≤ cfg.timeBudget + Mtime ∧
        (runLoop cfg env fuel st).currentIteration ≤
          st.currentIteration + fuel := by
  intro fuel
  induction fuel with
  | zero =>
    intro st h1 h2
    simp only [runLoop]
    by_cases hs : st.status = .in_progress
    · rw [if_pos hs]
      exact ⟨h1, h2, Nat.le_refl _⟩
    · rw [if_neg hs]
      exact ⟨h1, h2, Nat.le_refl _⟩
  | succ fuel ih =>
    intro st h1 h2
    simp only [runLoop]
    by_cases hs : st.status = .in_progress
    · rw [if_pos hs]
      obtain ⟨r1, r2, r3⟩ :=
        runRound_bounds cfg env st Mtok Mtime htok htime h1 h2
      obtain ⟨l1, l2, l3⟩ := ih (runRound cfg env st) r1 r2
      exact ⟨l1, l2, by omega⟩
    · rw [if_neg hs]
      exact ⟨h1, h2, by omega⟩

/-- C2: the controller executes at most `maxIterations` rounds, and the
accumulated token/time cost never exceeds the configured budget by more
than the cost of one in-flight provider call (`Mtok`/`Mtime` bound any
single call's cost). -/
theorem controller_bounds (cfg : Config) (env : Env) (Mtok Mtime : Nat)
    (htok : ∀ i role r, env.provider i role = some r → r.tokens ≤ Mtok)
    (htime : ∀ i role r, env.provider i role = some r → r.time ≤ Mtime) :
    (runProject cfg env).currentIteration ≤ cfg.maxIterations ∧
      (runProject cfg env).tokensSpent ≤ cfg.tokenBudget + Mtok ∧
      (runProject cfg env).timeSpent ≤ cfg.timeBudget + Mtime := by
  have hstart : start initialState =
      { initialState with status := .in_progress } := rfl
  obtain ⟨l1, l2, l3⟩ := runLoop_bounds cfg env Mtok Mtime htok htime
    cfg.maxIterations (start initialState)
    (by rw [hstart]; exact Nat.zero_le _)
    (by rw [hstart]; exact Nat.zero_le _)
  refine ⟨?_, l1, l2⟩
  have hcur : (start initialState).currentIteration = 0 := rfl
  rw [runProject]
  rw [hcur] at l3
  omega

/-- C2 witness: the bounds at the demo configuration and environment. -/
theorem controller_bounds_witness :
    (runProject demoCfg demoEnv).currentIteration ≤
        demoCfg.maxIterations ∧
      (runProject demoCfg demoEnv).tokensSpent ≤
        demoCfg.tokenBudget + 1 ∧
      (runProject demoCfg demoEnv).timeSpent ≤ demoCfg.timeBudget + 1 :=
  controller_bounds demoCfg demoEnv 1 1
    (fun _ _ r hr => by cases hr; exact Nat.le_refl 1)
    (fun _ _ r hr => by cases hr; exact Nat.le_refl 1)

/-- C3: the project lifecycle follows
`draft → in_progress → (completed | failed)`: entry is only
`draft → in_progress`, the terminal states absorb every transition, and a
round never returns a project to `draft`. -/
theorem status_machine (cfg : Config) (env : Env) :
    (∀ st : RunState, st.status = .draft →
      (start st).status = .in_progress) ∧
    (∀ st : RunState, st.status = .completed ∨ st.status = .failed →
      start st = st ∧ runRound cfg env st = st ∧
        ∀ fuel, runLoop cfg env fuel st = st) ∧
    (∀ st : RunState, st.status = .in_progress →
      start st = st ∧ (runRound cfg env st).status ≠ .draft) := by
  refine ⟨?_, ?_, ?_⟩
  · intro st h
    rw [start, if_pos h]
  · intro st h
    have hnd : ¬st.status = .draft := by
      rcases h with h | h <;> rw [h] <;> intro hx <;> cases hx
    have hni : ¬st.status = .in_progress := by
      rcases h with h | h <;> rw [h] <;> intro hx <;> cases hx
    refine ⟨by rw [start, if_neg hnd], by rw [runRound, if_neg hni], ?_⟩
    intro fuel
    cases fuel with
    | zero => simp only [runLoop]; rw [if_neg hni]
    | succ fuel => simp only [runLoop]; rw [if_neg hni]
  · intro st h
    have hnd : ¬st.status = .draft := by
      rw [h]
      intro hx
      cases hx
    refine ⟨by rw [start, if_neg hnd], ?_⟩
    refine runRound_chain cfg env st (fun stk => stk.status ≠ .draft)
      hnd ?_ ?_ ?_
    · intro role stk stk' o heq hne
      rcases callRole_status cfg env _ role stk stk' o heq with hc | hc
      · rw [hc]
        exact hne
      · rw [hc]
        intro hx
        cases hx
    · intro stk rOut hne
      exact hne
    · intro stk draft hne hc hroles
      rw [decisionState]
      by_cases ha :
        (evalRecord cfg env (st.currentIteration + 1) draft).approved = true
      · rw [if_pos ha]
        intro hx
        cases hx
      · rw [if_neg ha]
        exact hne

/-- The decision step never modifies the AgentExecution ledger. -/
theorem decisionState_execs (cfg : Config) (env : Env) (i : Nat)
    (draft : String) (st : RunState) :
    (decisionState cfg env i draft st).execs = st.execs := by
  rw [decisionState]
  split <;> rfl

/-- The decision step never modifies the ResearchData ledger. -/
theorem decisionState_research (cfg : Config) (env : Env) (i : Nat)
    (draft : String) (st : RunState) :
    (decisionState cfg env i draft st).research = st.research := by
  rw [decisionState]
  split <;> rfl

/-- C5: a round whose research backend returns zero matching sources
persists an empty-source ResearchData record with aggregate relevance score
0, and the round still proceeds to produce a writer output (the writer
execution is audited with its output) rather than failing because of the
empty research. -/
theorem research_empty_round (cfg : Config) (env : Env) (st : RunState)
    (hst : st.status = .in_progress)
    (hempty : ∀ q, env.backend q = [])
    (p rr w : CallResult)
    (hp : env.provider (st.currentIteration + 1) .planner = some p)
    (hr : env.provider (st.currentIteration + 1) .researcher = some rr)
    (hw : env.provider (st.currentIteration + 1) .writer = some w)
    (htok : st.tokensSpent + p.tokens + rr.tokens + w.tokens <
      cfg.tokenBudget)
    (htime : st.timeSpent + p.time + rr.time + w.time < cfg.timeBudget) :
    (∃ rd ∈ (runRound cfg env st).research,
        rd.iteration = st.currentIteration + 1 ∧ rd.sources = [] ∧
          rd.aggregateScore = 0) ∧
    (∃ e ∈ (runRound cfg env st).execs,
        e.iteration = st.currentIteration + 1 ∧ e.role = .writer ∧
          e.output = some w.text) := by
  set i := st.currentIteration + 1 with hi
  set s1 := successState env i .planner p st with hs1
  set s2 := successState env i .researcher rr s1 with hs2
  set s2b := researchAppendState env i rr.text s2 with hs2b
  set s3 := successState env i .writer w s2b with hs3
  have b1 : st.tokensSpent < cfg.tokenBudget ∧
      st.timeSpent < cfg.timeBudget := ⟨by omega, by omega⟩
  have e1 : callRole cfg env i .planner st = (s1, some p.text) := by
    rw [hs1, callRole, if_pos b1, hp]
  have q2t : s1.tokensSpent = st.tokensSpent + p.tokens := rfl
  have q2m : s1.timeSpent = st.timeSpent + p.time := rfl
  have b2 : s1.tokensSpent < cfg.tokenBudget ∧
      s1.timeSpent < cfg.timeBudget := ⟨by omega, by omega⟩
  have e2 : callRole cfg env i .researcher s1 = (s2, some rr.text) := by
    rw [hs2, callRole, if_pos b2, hr]
  have q3t : s2b.tokensSpent = st.tokensSpent + p.tokens + rr.tokens := rfl
  have q3m : s2b.timeSpent = st.timeSpent + p.time + rr.time := rfl
  have b3 : s2b.tokensSpent < cfg.tokenBudget ∧
      s2b.timeSpent < cfg.timeBudget := ⟨by omega, by omega⟩
  have e3 : callRole cfg env i .writer s2b = (s3, some w.text) := by
    rw [hs3, callRole, if_pos b3, hw]
  have hrdmem : researchRecord env i rr.text ∈ s3.research := by
    show researchRecord env i rr.text ∈
      s2.research ++ [researchRecord env i rr.text]
    exact List.mem_append_right _ (List.mem_singleton_self _)
  have hrdprops : (researchRecord env i rr.text).iteration = i ∧
      (researchRecord env i rr.text).sources = [] ∧
      (researchRecord env i rr.text).aggregateScore = 0 := by
    obtain ⟨hs, ha⟩ := research_empty env.backend
      (env.deriveQueries rr.text) env.perQueryResultCap env.totalSourceCap
      hempty
    exact ⟨rfl, hs, ha⟩
  have hwmem : successExec env i .writer w ∈ s3.execs := by
    show successExec env i .writer w ∈
      s2b.execs ++ [successExec env i .writer w]
    exact List.mem_append_right _ (List.mem_singleton_self _)
  rw [runRound, if_pos hst, ← hi]
  simp only [e1, e2]
  rw [show researchAppendState env i rr.text s2 = s2b from hs2b.symm]
  simp only [e3]
  split
  next st4 heq4 =>
    have hre : st4.research = s3.research :=
      callRole_research cfg env i .critic s3 st4 none heq4
    refine ⟨⟨researchRecord env i rr.text, ?_, hrdprops⟩,
      ⟨successExec env i .writer w, ?_, rfl, rfl, rfl⟩⟩
    · rw [hre]
      exact hrdmem
    · exact callRole_mem cfg env i .critic s3 st4 none heq4 _ hwmem
  next st4 t4 heq4 =>
    have hre : st4.research = s3.research :=
      callRole_research cfg env i .critic s3 st4 (some t4) heq4
    refine ⟨⟨researchRecord env i rr.text, ?_, hrdprops⟩,
      ⟨successExec env i .writer w, ?_, rfl, rfl, rfl⟩⟩
    · rw [decisionState_research, hre]
      exact hrdmem
    · rw [decisionState_execs]
      exact callRole_mem cfg env i .critic s3 st4 (some t4) heq4 _ hwmem

/-- C5 witness: a concrete round with an empty search backend still writes:
the ResearchData record is empty with score 0 and the writer execution is
audited. -/
theorem research_empty_round_witness :
    (∃ rd ∈ (runRound demoCfg demoEnv (start initialState)).research,
        rd.iteration = (start initialState).currentIteration + 1 ∧
          rd.sources = [] ∧ rd.aggregateScore = 0) ∧
    (∃ e ∈ (runRound demoCfg demoEnv (start initialState)).execs,
        e.iteration = (start initialState).currentIteration + 1 ∧
          e.role = .writer ∧ e.output = some "out") :=
  research_empty_round demoCfg demoEnv (start initialState) rfl
    (fun _ => rfl) ⟨"out", 1, 1⟩ ⟨"out", 1, 1⟩ ⟨"out", 1, 1⟩ rfl rfl rfl
    (by decide) (by decide)

/-- C3 witness: the entry transition and terminal absorption at concrete
states. -/
theorem status_machine_witness :
    (start initialState).status = .in_progress ∧
      start { initialState with status := Status.completed } =
        { initialState with status := Status.completed } :=
  ⟨(status_machine demoCfg demoEnv).1 initialState rfl,
    ((status_machine demoCfg demoEnv).2.1
      { initialState with status := Status.completed } (Or.inl rfl)).1⟩

/-! ## JS helpers from `app/static/js/main.js` -/

/-- The unit names of `formatBytes` (`sizes` array, `main.js` line 174). -/
def sizes : List String := ["Bytes", "KB", "MB", "GB", "TB"]

/-- The index `i = Math.floor(Math.log(bytes) / Math.log(k))` with `k = 1024`
(`main.js` line 175): for a positive integer `bytes` this is the integer
base-1024 logarithm. -/
def unitIndex (bytes : Nat) : Nat := Nat.log 1024 bytes

/-- Drop trailing `0` characters (the effect of `parseFloat` on the fixed
fraction). -/
def trimZeros (l : List Char) : List Char :=
  (l.reverse.dropWhile (fun c => c = '0')).reverse

/-- The `dm` fractional digits of `fp / 10^dm`, with leading zeros. -/
def fracDigits (fp dm : Nat) : List Char :=
  (Nat.toDigits 10 (fp + 10 ^ dm)).drop 1

/-- Render `n / 10^dm` as a decimal numeral with trailing fractional zeros
(and a trailing point) removed — the composition
`parseFloat((x).toFixed(dm))` rendered back to a string, for a non-negative
value. -/
def decimalString (n dm : Nat) : String :=
  let frac := trimZeros (fracDigits (n % 10 ^ dm) dm)
  if frac.isEmpty then toString (n / 10 ^ dm)
  else toString (n / 10 ^ dm) ++ "." ++ String.mk frac

/-- The numeric part `parseFloat((bytes / Math.pow(k, i)).toFixed(dm))` (`main.js` line
177): the value `bytes / 1024^i` rounded to `dm` decimal places (to the
nearest, half up) and rendered with trailing zeros dropped. -/
def roundedValueString (bytes dm i : Nat) : String :=
  decimalString ((bytes * 10 ^ dm * 2 + 1024 ^ i) / (2 * 1024 ^ i)) dm

/-- The function `formatBytes(bytes, decimals)` from `main.js` lines 169–178.  A
JavaScript out-of-range `sizes[i]` is `undefined` and concatenates as the
string `"undefined"`, which `List.getD` models with that default. -/
def formatBytes (bytes : Nat) (decimals : Int) : String :=
  if bytes = 0 then "0 Bytes"
  else
    roundedValueString bytes (if decimals < 0 then 0 else decimals.toNat)
        (unitIndex bytes) ++
      " " ++ (sizes.getD (unitIndex bytes) "undefined")

/-- C8: `formatBytes` is totally defined on its intended domain —
`formatBytes(0, d)` is `"0 Bytes"` for every `d`, and for `1 ≤ bytes <
1024^5` the computed unit index is at most 4, so the result ends in one of
the five real unit names. -/
theorem formatBytes_total (bytes : Nat) (decimals : Int)
    (h1 : 1 ≤ bytes) (h2 : bytes < 1024 ^ 5) :
    (∀ d : Int, formatBytes 0 d = "0 Bytes") ∧
      unitIndex bytes ≤ 4 ∧
      ∃ num u, u ∈ sizes ∧ formatBytes bytes decimals = num ++ " " ++ u := by
  have hb0 : ¬bytes = 0 := by omega
  have h4 : unitIndex bytes ≤ 4 := by
    show Nat.log 1024 bytes ≤ 4
    have := Nat.log_lt_of_lt_pow hb0 h2
    omega
  refine ⟨fun d => rfl, h4, ?_⟩
  refine ⟨roundedValueString bytes
      (if decimals < 0 then 0 else decimals.toNat) (unitIndex bytes),
    sizes.getD (unitIndex bytes) "undefined", ?_, ?_⟩
  · interval_cases (unitIndex bytes) <;> decide
  · rw [formatBytes, if_neg hb0]

/-- C8 witness: the guarantees at `bytes = 2048`, `decimals = 5`. -/
theorem formatBytes_total_witness :
    (∀ d : Int, formatBytes 0 d = "0 Bytes") ∧
      unitIndex 2048 ≤ 4 ∧
      ∃ num u, u ∈ sizes ∧ formatBytes 2048 5 = num ++ " " ++ u :=
  formatBytes_total 2048 5 (by omega) (by norm_num)

/-- The debounced wrapper's state machine (`debounce` in `main.js` lines
186–194): a single pending timer; each call runs `clearTimeout(timeout)`
and then schedules `func` with the call's arguments `wait` later.  Calls
are given in time order; a pending timer fires when its fire time is
reached no later than the next call (and at the end of the sequence). -/
def debounceRun {α : Type} (wait : Nat) :
    List (Nat × α) → Option (Nat × α) → List (Nat × α)
  | [], pending =>
    match pending with
    | none => []
    | some p => [p]
  | (t, a) :: rest, pending =>
    match pending with
    | some (ft, b) =>
      if ft ≤ t then (ft, b) :: debounceRun wait rest (some (t + wait, a))
      else debounceRun wait rest (some (t + wait, a))
    | none => debounceRun wait rest (some (t + wait, a))

/-- The invocations of `func` (fire time and arguments) produced by a
time-ordered sequence of calls to the debounced function. -/
def invocations {α : Type} (wait : Nat) (calls : List (Nat × α)) :
    List (Nat × α) :=
  debounceRun wait calls none

/-- A burst: call times strictly increasing, each within `wait` of the
previous call. -/
def isBurst {α : Type} (wait : Nat) : List (Nat × α) → Bool
  | [] => true
  | [_] => true
  | (t1, _) :: (t2, b) :: rest =>
    decide (t1 < t2) && decide (t2 < t1 + wait) &&
      isBurst wait ((t2, b) :: rest)

/-- The last call of a nonempty sequence (default for the empty tail). -/
def lastCall {α : Type} (c : Nat × α) : List (Nat × α) → Nat × α
  | [] => c
  | c' :: rest => lastCall c' rest

/-- Within a burst the pending timer is cancelled by every following call,
so only the final schedule fires. -/
theorem debounceRun_burst {α : Type} (wait : Nat) :
    ∀ (calls : List (Nat × α)) (t0 : Nat) (a0 : α),
      isBurst wait ((t0, a0) :: calls) = true →
      debounceRun wait calls (some (t0 + wait, a0)) =
        [((lastCall (t0, a0) calls).1 + wait,
          (lastCall (t0, a0) calls).2)] := by
  intro calls
  induction calls with
  | nil =>
    intro t0 a0 h
    rfl
  | cons c rest ih =>
    rcases c with ⟨t1, a1⟩
    intro t0 a0 h
    simp only [isBurst, Bool.and_eq_true, decide_eq_true_eq] at h
    obtain ⟨⟨h01, h0w⟩, hb⟩ := h
    simp only [debounceRun]
    rw [if_neg (by omega : ¬t0 + wait ≤ t1)]
    exact ih t1 a1 hb

/-- C9: over a burst of calls (each within `wait` of the previous), every
call cancels the pending invocation before scheduling its own, so `func`
fires exactly once for the burst, `wait` after the final call and with the
final call's arguments. -/
theorem debounce_burst {α : Type} (wait t0 : Nat) (a0 : α)
    (rest : List (Nat × α))
    (h : isBurst wait ((t0, a0) :: rest) = true) :
    invocations wait ((t0, a0) :: rest) =
      [((lastCall (t0, a0) rest).1 + wait, (lastCall (t0, a0) rest).2)] := by
  show debounceRun wait ((t0, a0) :: rest) none = _
  simp only [debounceRun]
  exact debounceRun_burst wait rest t0 a0 h

/-- C9 witness: three calls at times 0, 5, 9 with `wait = 10` produce one
invocation at time 19 with the last call's argument. -/
theorem debounce_burst_witness :
    invocations 10 [(0, 1), (5, 2), (9, 3)] = [(19, (3 : Nat))] := by
  have h := debounce_burst 10 0 (1 : Nat) [(5, 2), (9, 3)] (by decide)
  simpa using h

/-- The effect of `classList.add`: adds the class when absent. -/
def addClass (c : String) (classes : List String) : List String :=
  if c ∈ classes then classes else classes ++ [c]

/-- The observable outcome of dispatching a submit event: whether the
default action was prevented and propagation stopped, and the form's class
list and `noValidate` flag afterwards. -/
structure SubmitOutcome where
  prevented : Bool
  stopped : Bool
  classes : List String
  noValidate : Bool
deriving DecidableEq, Repr

/-- The submit handler installed on `.needs-validation` forms by `main.js`
lines 35–44: when `form.checkValidity()` is false the event's default
action is prevented and its propagation stopped; `was-validated` is added
to the form's classes on every submit attempt. -/
def mainSubmitHandler (checkValidity : Bool) (classes : List String)
    (noValidate : Bool) : SubmitOutcome :=
  { prevented := !checkValidity
    stopped := !checkValidity
    classes := addClass "was-validated" classes
    noValidate := noValidate }

/-- The `initFormValidation` submit handler from `SETUP_DB.md` lines
116–170: when the active element is a button named `back`, validation is
bypassed entirely (`noValidate` is set, nothing is prevented, no class is
added); otherwise the `checkValidity` gate of the main handler applies.
Field-level marking, scrolling and the submit-button spinner are
presentation effects on the DOM outside the embedded state. -/
def initFormSubmitHandler (backClicked : Bool) (checkValidity : Bool)
    (classes : List String) (noValidate : Bool) : SubmitOutcome :=
  if backClicked then
    { prevented := false, stopped := false, classes := classes,
      noValidate := true }
  else if !checkValidity then
    { prevented := true, stopped := true,
      classes := addClass "was-validated" classes, noValidate := noValidate }
  else
    { prevented := false, stopped := false,
      classes := addClass "was-validated" classes, noValidate := noValidate }

/-- The added class is always present afterwards. -/
theorem mem_addClass (c : String) (classes : List String) :
    c ∈ addClass c classes := by
  rw [addClass]
  split
  next h => exact h
  next h => exact List.mem_append_right _ (List.mem_singleton_self _)

/-- C10: the `main.js` handler prevents the default action and stops
propagation exactly when `checkValidity()` is false and adds
`was-validated` on every submit attempt; the `initFormValidation` variant
additionally bypasses validation entirely when the active element is the
`back` button, and otherwise behaves like the gate. -/
theorem form_validation_handlers (valid back nv : Bool)
    (classes : List String) :
    ((mainSubmitHandler valid classes nv).prevented = !valid ∧
      (mainSubmitHandler valid classes nv).stopped = !valid ∧
      "was-validated" ∈ (mainSubmitHandler valid classes nv).classes) ∧
    (back = true →
      (initFormSubmitHandler back valid classes nv).prevented = false ∧
        (initFormSubmitHandler back valid classes nv).stopped = false ∧
        (initFormSubmitHandler back valid classes nv).noValidate = true) ∧
    (back = false →
      (initFormSubmitHandler back valid classes nv).prevented = !valid ∧
        (initFormSubmitHandler back valid classes nv).stopped = !valid ∧
        "was-validated" ∈
          (initFormSubmitHandler back valid classes nv).classes) := by
  refine ⟨⟨rfl, rfl, mem_addClass _ _⟩, ?_, ?_⟩
  · intro hb
    rw [initFormSubmitHandler, if_pos hb]
    exact ⟨rfl, rfl, rfl⟩
  · intro hb
    rw [initFormSubmitHandler, if_neg (by rw [hb]; intro hx; cases hx)]
    cases valid
    · rw [if_pos (show (!false) = true from rfl)]
      exact ⟨rfl, rfl, mem_addClass _ _⟩
    · rw [if_neg (by intro hx; cases hx)]
      exact ⟨rfl, rfl, mem_addClass _ _⟩

/-- C10 witness: both handlers at a concrete invalid form, and the back
bypass. -/
theorem form_validation_handlers_witness :
    ((mainSubmitHandler false [] false).prevented = true ∧
      "was-validated" ∈ (mainSubmitHandler false [] false).classes) ∧
      (initFormSubmitHandler true false [] false).noValidate = true ∧
      (initFormSubmitHandler false false [] false).prevented = true :=
  ⟨⟨(form_validation_handlers false true false []).1.1,
      (form_validation_handlers false true false []).1.2.2⟩,
    ((form_validation_handlers false true false []).2.1 rfl).2.2,
    ((form_validation_handlers false false false []).2.2 rfl).1⟩

end AutonoWrite
